import Mathlib

/-!
Verification development for the label-assignment and loss-composition logic of an
mmdetection-style object-detection codebase.

Embedding conventions:

* Floating-point tensor entries are embedded as exact rationals (`ℚ`); tensors of
  boxes become `List Box`, index tensors become `List ℕ`.
* `torch.topk(·, largest=False)` is embedded as sorting the index list by value
  (ties broken by index) and taking the first `k` elements.
* The source computes Euclidean center distances with a final `sqrt` and ranks
  candidates by them; `sqrt` is strictly monotone on the nonnegative squared
  distances, so the embedding ranks by the squared distance, which selects the
  same candidates.
* `torch.std` (unbiased, `n - 1` divisor) appears only inside the comparison
  `iou ≥ mean + std`; for a nonnegative radicand `v` the comparison
  `x ≥ m + √v` is equivalent to `m ≤ x ∧ v ≤ (x - m)²`, so the embedding uses
  that radical-free form (`geMeanPlusStd`).
* Fallible tensor operations (`raise ValueError`, `torch.topk` with `k` larger
  than the dimension, `torch.cat` of an empty tensor list) are embedded with
  `Except String`.
-/

namespace Mmdet

/-- Axis-aligned bounding box `[x1, y1, x2, y2]`, rational coordinates. -/
structure Box where
  x1 : ℚ
  y1 : ℚ
  x2 : ℚ
  y2 : ℚ
deriving DecidableEq

instance : Inhabited Box := ⟨⟨0, 0, 0, 0⟩⟩

/-- Modelled from the spec: the IoU primitive `bbox_overlaps`
(`mmdet/core/bbox/geometry.py`) is imported by `atss_assigner.py` but its body is
not among the given source files; the spec describes it as "Geometric primitives:
IoU/overlap computation between box sets". Standard intersection over union. -/
def bbox_overlaps (a b : Box) : ℚ :=
  let iw := max (min a.x2 b.x2 - max a.x1 b.x1) 0
  let ih := max (min a.y2 b.y2 - max a.y1 b.y1) 0
  let inter := iw * ih
  inter / ((a.x2 - a.x1) * (a.y2 - a.y1) + (b.x2 - b.x1) * (b.y2 - b.y1) - inter)

/-- Box center, x coordinate: `(x1 + x2) / 2.0` (atss_assigner.py line 64). -/
def centerX (b : Box) : ℚ := (b.x1 + b.x2) / 2

/-- Box center, y coordinate: `(y1 + y2) / 2.0` (atss_assigner.py line 65). -/
def centerY (b : Box) : ℚ := (b.y1 + b.y2) / 2

/-- Squared Euclidean distance between the centers of two boxes
(atss_assigner.py line 68 computes its square root; see the header note). -/
def centerDistSq (a b : Box) : ℚ :=
  (centerX a - centerX b) ^ 2 + (centerY a - centerY b) ^ 2

namespace ATSSAssigner

/-- Ranking used by `topk(..., largest=False)` on a value function `d`:
strictly smaller value first, ties broken by the smaller index. -/
def sortRel (d : ℕ → ℚ) (i j : ℕ) : Prop :=
  d i < d j ∨ (d i = d j ∧ i ≤ j)

instance (d : ℕ → ℚ) : DecidableRel (sortRel d) := fun i j => by
  unfold sortRel; infer_instance

/-- The `topk` smallest-value indices of `idxs` under `d` (ascending, ties by
index), embedding `distances_per_level.topk(self.topk, largest=False)`
(atss_assigner.py line 75). -/
def topkIdx (d : ℕ → ℚ) (k : ℕ) (idxs : List ℕ) : List ℕ :=
  (List.insertionSort (sortRel d) idxs).take k

section AssignDefs

variable (topk : ℕ) (bboxes : List Box) (num_level_bboxes : List ℕ)
variable (gt_bboxes : List Box)

/-- The running `start_idx` of pyramid level `ℓ` (atss_assigner.py lines 71-77):
the number of boxes in all earlier levels. -/
def startOf (ℓ : ℕ) : ℕ := ((num_level_bboxes.take ℓ).sum)

/-- Global box indices of pyramid level `ℓ`: the slice
`distances[start_idx:end_idx]` (atss_assigner.py line 74).  Like the Python
slice, it clamps at the total number of boxes. -/
def levelIdxs (ℓ : ℕ) : List ℕ :=
  ((List.range bboxes.length).drop (startOf num_level_bboxes ℓ)).take
    (num_level_bboxes.getD ℓ 0)

/-- IoU of box `i` with ground truth `g` (`overlaps`, atss_assigner.py line 58). -/
def ov (i g : ℕ) : ℚ :=
  bbox_overlaps (bboxes.getD i default) (gt_bboxes.getD g default)

/-- Squared center distance of box `i` to ground truth `g`
(`distances`, atss_assigner.py line 68; see the header note on `sqrt`). -/
def distToGt (g i : ℕ) : ℚ :=
  centerDistSq (bboxes.getD i default) (gt_bboxes.getD g default)

/-- Candidates selected on level `ℓ` for ground truth `g`
(atss_assigner.py lines 70-77). -/
def candOfGtLevel (g ℓ : ℕ) : List ℕ :=
  topkIdx (distToGt bboxes gt_bboxes g) topk (levelIdxs bboxes num_level_bboxes ℓ)

/-- All candidates for ground truth `g`: concatenation over levels
(`candidate_idxs = torch.cat(candidate_idxs)`, atss_assigner.py line 78). -/
def candOfGt (g : ℕ) : List ℕ :=
  ((List.range num_level_bboxes.length).map
    (candOfGtLevel topk bboxes num_level_bboxes gt_bboxes g)).flatten

/-- IoUs of the candidates of ground truth `g`
(`candidate_overlaps`, atss_assigner.py line 80). -/
def candOverlaps (g : ℕ) : List ℚ :=
  (candOfGt topk bboxes num_level_bboxes gt_bboxes g).map
    (fun i => ov bboxes gt_bboxes i g)

/-- Mean of the candidate IoUs (`overlaps_mean_per_gt`, atss_assigner.py line 81). -/
def overlapsMean (g : ℕ) : ℚ :=
  (candOverlaps topk bboxes num_level_bboxes gt_bboxes g).sum /
    ((candOverlaps topk bboxes num_level_bboxes gt_bboxes g).length : ℚ)

/-- Unbiased variance of the candidate IoUs, the square of
`overlaps_std_per_gt` (atss_assigner.py line 82; `torch.std` divides by
`n - 1`). -/
def overlapsVar (g : ℕ) : ℚ :=
  ((candOverlaps topk bboxes num_level_bboxes gt_bboxes g).map
    (fun x => (x - overlapsMean topk bboxes num_level_bboxes gt_bboxes g) ^ 2)).sum /
    (((candOverlaps topk bboxes num_level_bboxes gt_bboxes g).length - 1 : ℕ) : ℚ)

end AssignDefs

/-- Radical-free form of `m + √v ≤ x` for a nonnegative radicand `v`
(see the header note): the statistical gate
`candidate_overlaps >= overlaps_mean_per_gt + overlaps_std_per_gt`
(atss_assigner.py lines 83-85). -/
def geMeanPlusStd (x m v : ℚ) : Prop :=
  m ≤ x ∧ v ≤ (x - m) ^ 2

instance (x m v : ℚ) : Decidable (geMeanPlusStd x m v) := by
  unfold geMeanPlusStd; infer_instance

/-- Center-containment gate (atss_assigner.py lines 94-98): the minimum of the
four signed distances from the candidate's center to the sides of the ground
truth must exceed `0.01`. -/
def isInGt (c g : Box) : Prop :=
  1 / 100 <
    min (centerX c - g.x1)
      (min (centerY c - g.y1) (min (g.x2 - centerX c) (g.y2 - centerY c)))

instance (c g : Box) : Decidable (isInGt c g) := by
  unfold isInGt; infer_instance

section AssignDefs2

variable (topk : ℕ) (bboxes : List Box) (num_level_bboxes : List ℕ)
variable (gt_bboxes : List Box)

/-- Pair `(i, g)` is kept as positive (`is_pos`, atss_assigner.py lines 85-99):
box `i` is a candidate of ground truth `g`, passes the mean-plus-std IoU gate,
and has its center inside `g`. -/
def posPair (i g : ℕ) : Prop :=
  i ∈ candOfGt topk bboxes num_level_bboxes gt_bboxes g ∧
  geMeanPlusStd (ov bboxes gt_bboxes i g)
    (overlapsMean topk bboxes num_level_bboxes gt_bboxes g)
    (overlapsVar topk bboxes num_level_bboxes gt_bboxes g) ∧
  isInGt (bboxes.getD i default) (gt_bboxes.getD g default)

instance (i g : ℕ) : Decidable (posPair topk bboxes num_level_bboxes gt_bboxes i g) := by
  unfold posPair; infer_instance

/-- The sentinel `INF = 100000000` (atss_assigner.py line 55). -/
def INF : ℚ := 100000000

/-- Entry `(i, g)` of `overlaps_inf` (atss_assigner.py lines 101-104): the IoU
for positive pairs, `-INF` elsewhere. -/
def posOverlap (i g : ℕ) : ℚ :=
  if posPair topk bboxes num_level_bboxes gt_bboxes i g then ov bboxes gt_bboxes i g
  else -INF

/-- Row `i` of `overlaps_inf`, one entry per ground truth. -/
def overlapRow (i : ℕ) : List ℚ :=
  (List.range gt_bboxes.length).map
    (posOverlap topk bboxes num_level_bboxes gt_bboxes i)

/-- `max_overlaps[i]` (atss_assigner.py line 106): the maximum of row `i`,
realized as a fold with base `-INF` (every entry is `≥ -INF`, and the row is
nonempty whenever there is a ground truth, so this is the row maximum). -/
def rowMax (i : ℕ) : ℚ :=
  (overlapRow topk bboxes num_level_bboxes gt_bboxes i).foldr max (-INF)

/-- `argmax_overlaps[i]` (atss_assigner.py line 106): index of the first entry
of row `i` equal to the row maximum. -/
def rowArgmax (i : ℕ) : ℕ :=
  (overlapRow topk bboxes num_level_bboxes gt_bboxes i).findIdx
    (fun x => decide (x = rowMax topk bboxes num_level_bboxes gt_bboxes i))

/-- `assigned_gt_inds[i]` (atss_assigner.py lines 107-108): `argmax + 1` where
the row maximum differs from `-INF`, `0` (background) elsewhere. -/
def assignedGtInds (i : ℕ) : ℕ :=
  if rowMax topk bboxes num_level_bboxes gt_bboxes i ≠ -INF then
    rowArgmax topk bboxes num_level_bboxes gt_bboxes i + 1
  else 0

/-- `assigned_labels[i]` (atss_assigner.py lines 111-115): for a positive box
the label `gt_labels[assigned_gt_inds[i] - 1]` of its assigned ground truth,
`0` for background. -/
def assignedLabels (gt_labels : List ℤ) (i : ℕ) : ℤ :=
  if 0 < assignedGtInds topk bboxes num_level_bboxes gt_bboxes i then
    gt_labels.getD (assignedGtInds topk bboxes num_level_bboxes gt_bboxes i - 1) 0
  else 0

end AssignDefs2

/-- Result of `ATSSAssigner.assign` (`AssignResult`, atss_assigner.py line 118). -/
structure AssignResult where
  num_gts : ℕ
  gt_inds : List ℕ
  max_overlaps : List ℚ
  labels : Option (List ℤ)
deriving DecidableEq

section AssignDefs3

variable (topk : ℕ) (bboxes : List Box) (num_level_bboxes : List ℕ)
variable (gt_bboxes : List Box)

/-- The assign result on the non-error path (atss_assigner.py lines 55-118). -/
def assignResult (gt_labels : Option (List ℤ)) : AssignResult where
  num_gts := gt_bboxes.length
  gt_inds := (List.range bboxes.length).map
    (assignedGtInds topk bboxes num_level_bboxes gt_bboxes)
  max_overlaps := (List.range bboxes.length).map
    (rowMax topk bboxes num_level_bboxes gt_bboxes)
  labels := gt_labels.map (fun ls =>
    (List.range bboxes.length).map
      (assignedLabels topk bboxes num_level_bboxes gt_bboxes ls))

/-- Every pyramid level slice holds at least `topk` boxes, the precondition of
`torch.topk` on line 75 of atss_assigner.py. -/
def levelsOk : Prop :=
  ∀ ℓ < num_level_bboxes.length,
    topk ≤ (levelIdxs bboxes num_level_bboxes ℓ).length

instance : Decidable (levelsOk topk bboxes num_level_bboxes) := by
  unfold levelsOk; infer_instance

/-- `ATSSAssigner.assign` (atss_assigner.py lines 26-118).  Error paths, in
source order: the explicit `ValueError('No gt or bboxes')` on line 53; the
runtime error of `torch.topk` on line 75 when some level slice holds fewer
than `topk` boxes; the runtime error of `torch.cat` on line 78 when the level
list is empty. -/
def assign (gt_labels : Option (List ℤ)) : Except String AssignResult :=
  if bboxes.length = 0 ∨ gt_bboxes.length = 0 then .error "No gt or bboxes"
  else if ¬ levelsOk topk bboxes num_level_bboxes then
    .error "selected index k out of range"
  else if num_level_bboxes.length = 0 then
    .error "cat expects a non-empty list of tensors"
  else .ok (assignResult topk bboxes num_level_bboxes gt_bboxes gt_labels)

end AssignDefs3

end ATSSAssigner

/-- Python's `'loss' in name` test on loss-dictionary keys
(cascade_roi_head.py lines 215 and 253, semi_mixup.py line 110). -/
def nameHasLoss (s : String) : Prop := "loss".data <:+: s.data

instance (s : String) : Decidable (nameHasLoss s) := by
  unfold nameHasLoss; infer_instance

namespace CascadeRoIHead

/-- Modelled from the spec: the per-stage collaborators of `CascadeRoIHead`
(assigners, samplers, ROI extractors, bbox and mask heads) are built by
`init_assigner_sampler` / `init_bboxhead` / `init_maskhead` from the registry
but their bodies are not among the given source files; the spec lists them as
"Assigners", "Samplers" and "ROI/bbox heads: per-stage classification+regression,
loss computation, and box refinement".  They are abstract stage-indexed
functions over abstract tensor types; the orchestration below is from
`cascade_roi_head.py`. -/
structure Ops (P G A S R F Pred T : Type) where
  assign : ℕ → P → G → A
  sample : ℕ → A → P → G → S
  toRois : List S → R
  roisEmpty : R → Bool
  extract : ℕ → R → F
  predict : ℕ → F → Pred
  getTarget : ℕ → List S → List G → T
  lossOf : ℕ → Pred → T → List (String × ℚ)
  maskLossOf : ℕ → List S → List (String × ℚ)
  refine : ℕ → R → T → Pred → List S → List P

/-- Record of one stage of `CascadeRoIHead.forward_train`
(cascade_roi_head.py lines 167-262).  `skipped` is the `len(rois) == 0 →
continue` branch (lines 199-202); on that branch the head is never run, so the
head-side fields are `none` and no loss entries are produced. -/
structure StageTrace (P A S R F Pred T : Type) where
  proposalsIn : List P
  assignResults : List A
  sampResults : List S
  rois : R
  skipped : Bool
  feats : Option F
  pred : Option Pred
  targets : Option T
  rawEntries : List (String × ℚ)
  entries : List (String × ℚ)
  proposalsOut : List P

/-- The loss-dictionary key `'s{}.{}'.format(i, name)`
(cascade_roi_head.py lines 214 and 252). -/
def stageKey (i : ℕ) (nm : String) : String := "s" ++ toString i ++ "." ++ nm

section CascadeDefs

variable {P G A S R F Pred T : Type}

/-- One stage of `CascadeRoIHead.forward_train` (cascade_roi_head.py lines
167-262): per-image assign and sample (lines 181-191), `bbox2roi` (line 197),
the empty-roi `continue` (lines 199-202), feature extraction and head forward
(lines 204-208), targets and loss with the `'s{i}.'` key prefix and the
stage-weight factor on entries whose name contains `'loss'` (lines 210-215),
optional mask loss with the same key rule (lines 218-253), and box refinement
on every stage but the last (lines 256-261). -/
def runStage (ops : Ops P G A S R F Pred T) (withMask : Bool) (numStages : ℕ)
    (lw : ℚ) (i : ℕ) (props : List P) (gts : List G) :
    StageTrace P A S R F Pred T :=
  let assignResults := (props.zip gts).map (fun pg => ops.assign i pg.1 pg.2)
  let sampResults := (props.zip gts).map
    (fun pg => ops.sample i (ops.assign i pg.1 pg.2) pg.1 pg.2)
  let rois := ops.toRois sampResults
  if ops.roisEmpty rois then
    { proposalsIn := props, assignResults := assignResults,
      sampResults := sampResults, rois := rois, skipped := true,
      feats := none, pred := none, targets := none,
      rawEntries := [], entries := [], proposalsOut := props }
  else
    let feats := ops.extract i rois
    let pred := ops.predict i feats
    let targets := ops.getTarget i sampResults gts
    let raw := ops.lossOf i pred targets ++
      (if withMask then ops.maskLossOf i sampResults else [])
    { proposalsIn := props, assignResults := assignResults,
      sampResults := sampResults, rois := rois, skipped := false,
      feats := some feats, pred := some pred, targets := some targets,
      rawEntries := raw,
      entries := raw.map (fun e =>
        (stageKey i e.1, if nameHasLoss e.1 then e.2 * lw else e.2)),
      proposalsOut :=
        if i < numStages - 1 then ops.refine i rois targets pred sampResults
        else props }

/-- The stage loop of `forward_train` (`for i in range(self.num_stages)`,
cascade_roi_head.py line 167), recording one `StageTrace` per stage; the
proposal list produced by a stage feeds the next stage. -/
def runFrom (ops : Ops P G A S R F Pred T) (withMask : Bool) (numStages : ℕ)
    (lws : List ℚ) (gts : List G) :
    ℕ → ℕ → List P → List (StageTrace P A S R F Pred T)
  | 0, _, _ => []
  | n + 1, i, props =>
    let t := runStage ops withMask numStages (lws.getD i 0) i props gts
    t :: runFrom ops withMask numStages lws gts n (i + 1) t.proposalsOut

/-- `CascadeRoIHead.forward_train` (cascade_roi_head.py lines 132-263): the
returned loss dictionary, as the list of entries inserted over all stages. -/
def forward_train (ops : Ops P G A S R F Pred T) (withMask : Bool)
    (numStages : ℕ) (lws : List ℚ) (props0 : List P) (gts : List G) :
    List (String × ℚ) :=
  ((runFrom ops withMask numStages lws gts numStages 0 props0).map
    (fun t => t.entries)).flatten

end CascadeDefs

/-- Modelled from the spec: the per-stage collaborators of
`CascadeRoIHead.simple_test` (ROI extractors and bbox heads, whose bodies are
not among the given source files; the spec lists "ROI/bbox heads: per-stage
classification+regression").  A classification-score tensor is embedded as a
function `ι → ℚ` from an abstract cell-index type; `argmaxOf` stands for
`cls_score.argmax(dim=1)` and `regress` for `bbox_head.regress_by_class`. -/
structure TestOps (ι R F BP L : Type) where
  extract : ℕ → R → F
  predict : ℕ → F → (ι → ℚ) × BP
  argmaxOf : (ι → ℚ) → L
  regress : ℕ → R → L → BP → R

section TestDefs

variable {ι R F BP L : Type}

/-- The stage loop of `CascadeRoIHead.simple_test` (cascade_roi_head.py lines
279-294): each stage scores the current rois and, on every stage but the
last, refines the rois by class-conditional regression.  Returns the list
`ms_scores` and the final rois. -/
def testLoop (ops : TestOps ι R F BP L) (numStages : ℕ) :
    ℕ → ℕ → R → List (ι → ℚ) × R
  | 0, _, rois => ([], rois)
  | n + 1, i, rois =>
    let p := ops.predict i (ops.extract i rois)
    let rois' :=
      if i < numStages - 1 then ops.regress i rois (ops.argmaxOf p.1) p.2
      else rois
    let rest := testLoop ops numStages n (i + 1) rois'
    (p.1 :: rest.1, rest.2)

/-- `CascadeRoIHead.simple_test` (cascade_roi_head.py lines 265-307), up to the
final classification score: `cls_score = sum(ms_scores) / self.num_stages`
(line 296), paired with the rois handed to `get_det_bboxes`. -/
def simple_test (ops : TestOps ι R F BP L) (numStages : ℕ) (rois0 : R) :
    (ι → ℚ) × R :=
  let r := testLoop ops numStages numStages 0 rois0
  (fun c => (r.1.map (fun s => s c)).sum / (numStages : ℚ), r.2)

/-- Closed form of the rois scored at each stage: `roisAt 0` is the initial
rois and `roisAt (i+1)` is the class-conditional regression of `roisAt i` by
stage `i`'s predictions (cascade_roi_head.py lines 291-294). -/
def roisAt (ops : TestOps ι R F BP L) (numStages : ℕ) (rois0 : R) : ℕ → R
  | 0 => rois0
  | i + 1 =>
    let r := roisAt ops numStages rois0 i
    let p := ops.predict i (ops.extract i r)
    if i < numStages - 1 then ops.regress i r (ops.argmaxOf p.1) p.2 else r

/-- Closed form of stage `i`'s classification score (cascade_roi_head.py line
288): the head applied to the features of the stage-`i` rois. -/
def scoreAt (ops : TestOps ι R F BP L) (numStages : ℕ) (rois0 : R) (i : ℕ) :
    ι → ℚ :=
  (ops.predict i (ops.extract i (roisAt ops numStages rois0 i))).1

end TestDefs

end CascadeRoIHead

namespace SemiMixUpDetector

/-- Boolean-mask selection `xs[mask]` on a tensor embedded as a list. -/
def maskSelect {α : Type} (mask : List Bool) (xs : List α) : List α :=
  ((mask.zip xs).filter (fun p => p.1)).map (fun p => p.2)

/-- An instance set: aligned box and label tensors (`gt_instances`). -/
structure Instances where
  bboxes : List Box
  labels : List ℤ
deriving DecidableEq

/-- `SemiMixUpDetector.update_pseudo_instances` (semi_mixup.py lines 132-140),
for one image: keep exactly the teacher predictions whose score is strictly
above `semi_train_cfg.score_thr`. -/
def update_pseudo_instances (score_thr : ℚ) (pred_bboxes : List Box)
    (pred_labels : List ℤ) (pred_scores : List ℚ) : Instances :=
  let valid_flag := pred_scores.map (fun s => decide (score_thr < s))
  { bboxes := maskSelect valid_flag pred_bboxes
    labels := maskSelect valid_flag pred_labels }

/-- `SemiMixUpDetector.filter_pseudo_instances` (semi_mixup.py lines 117-130),
for one image: when the instance set is nonempty, keep exactly the pseudo
boxes whose width exceeds `min_pseudo_bbox_wh[0]` and whose height exceeds
`min_pseudo_bbox_wh[1]`, selecting labels by the same mask. -/
def filter_pseudo_instances (min_pseudo_bbox_wh : ℚ × ℚ) (inst : Instances) :
    Instances :=
  if inst.bboxes.length = 0 then inst
  else
    let valid_mask := inst.bboxes.map (fun bx =>
      decide (min_pseudo_bbox_wh.1 < bx.x2 - bx.x1) &&
        decide (min_pseudo_bbox_wh.2 < bx.y2 - bx.y1))
    { bboxes := maskSelect valid_mask inst.bboxes
      labels := maskSelect valid_mask inst.labels }

/-- A loss-dictionary value: a loss tensor or a sequence of loss tensors
(the `isinstance(loss, Sequence)` branch of semi_mixup.py lines 111-114);
tensors are embedded cellwise as rationals. -/
inductive LossVal where
  | scalar (q : ℚ)
  | seq (l : List ℚ)
deriving DecidableEq

/-- Scaling of a loss value by a weight: `loss * weight`, elementwise
(`[item * weight for item in loss]`) on sequences (semi_mixup.py lines 111-114). -/
def scaleLV (v : LossVal) (w : ℚ) : LossVal :=
  match v with
  | .scalar q => .scalar (q * w)
  | .seq l => .seq (l.map (fun x => x * w))

/-- A loss value of the same shape with every cell zero. -/
def zeroLike (v : LossVal) : LossVal :=
  match v with
  | .scalar _ => .scalar 0
  | .seq l => .seq (l.map (fun _ => 0))

/-- `SemiMixUpDetector.weight` (semi_mixup.py lines 107-115): multiply by `w`
exactly the entries whose key contains `'loss'`, leaving the rest unchanged. -/
def weight (losses : List (String × LossVal)) (w : ℚ) : List (String × LossVal) :=
  losses.map (fun e => if nameHasLoss e.1 then (e.1, scaleLV e.2 w) else e)

/-- `SemiMixUpDetector.pseudo_loss` (semi_mixup.py lines 92-105):
`unsup_weight` is the configured weight when the batch holds at least one
pseudo instance and `0` otherwise; the student losses are weighted and the
keys prefixed with `'unsup_'`.  `raw` stands for `self.student.loss(...)` and
`instance_counts` for `[len(s.gt_instances) for s in batch_data_samples]`. -/
def pseudo_loss (unsup_weight_cfg : ℚ) (instance_counts : List ℕ)
    (raw : List (String × LossVal)) : List (String × LossVal) :=
  let w := if 0 < instance_counts.sum then unsup_weight_cfg else 0
  (weight raw w).map (fun e => ("unsup_" ++ e.1, e.2))

end SemiMixUpDetector

namespace Wit

/-- Concrete inputs used to instantiate the theorems below on closed terms. -/
def box2 : Box := ⟨0, 0, 2, 2⟩

/-- Single candidate box. -/
def bbs : List Box := [box2]

/-- Single pyramid level holding one box. -/
def lv : List ℕ := [1]

/-- Single ground-truth box. -/
def gts : List Box := [box2]

/-- Concrete cascade stage components over trivial tensor types. -/
def ops : CascadeRoIHead.Ops Unit Unit Unit Unit Unit Unit Unit Unit where
  assign := fun _ _ _ => ()
  sample := fun _ _ _ _ => ()
  toRois := fun _ => ()
  roisEmpty := fun _ => false
  extract := fun _ _ => ()
  predict := fun _ _ => ()
  getTarget := fun _ _ _ => ()
  lossOf := fun _ _ _ => [("loss_cls", 2), ("acc", 3)]
  maskLossOf := fun _ _ => []
  refine := fun _ _ _ _ _ => [()]

/-- Concrete cascade stage components whose pooled rois are always empty,
exercising the `len(rois) == 0 → continue` branch. -/
def opsSkip : CascadeRoIHead.Ops Unit Unit Unit Unit Unit Unit Unit Unit where
  assign := fun _ _ _ => ()
  sample := fun _ _ _ _ => ()
  toRois := fun _ => ()
  roisEmpty := fun _ => true
  extract := fun _ _ => ()
  predict := fun _ _ => ()
  getTarget := fun _ _ _ => ()
  lossOf := fun _ _ _ => [("loss_cls", 2)]
  maskLossOf := fun _ _ => []
  refine := fun _ _ _ _ _ => []

end Wit

end Mmdet

namespace Mmdet

namespace ATSSAssigner

theorem sortRel_total (d : ℕ → ℚ) (i j : ℕ) : sortRel d i j ∨ sortRel d j i := by
  rcases lt_trichotomy (d i) (d j) with h | h | h
  · exact Or.inl (Or.inl h)
  · rcases Nat.le_total i j with hij | hij
    · exact Or.inl (Or.inr ⟨h, hij⟩)
    · exact Or.inr (Or.inr ⟨h.symm, hij⟩)
  · exact Or.inr (Or.inl h)

theorem sortRel_trans (d : ℕ → ℚ) (i j k : ℕ) :
    sortRel d i j → sortRel d j k → sortRel d i k := by
  intro hij hjk
  rcases hij with h1 | ⟨h1, h1'⟩ <;> rcases hjk with h2 | ⟨h2, h2'⟩
  · exact Or.inl (h1.trans h2)
  · exact Or.inl (h2 ▸ h1)
  · exact Or.inl (h1 ▸ h2)
  · exact Or.inr ⟨h1.trans h2, h1'.trans h2'⟩

theorem sortRel_le {d : ℕ → ℚ} {i j : ℕ} (h : sortRel d i j) : d i ≤ d j := by
  rcases h with h | ⟨h, _⟩
  · exact le_of_lt h
  · exact le_of_eq h

theorem sorted_topkSort (d : ℕ → ℚ) (l : List ℕ) :
    List.Sorted (sortRel d) (List.insertionSort (sortRel d) l) :=
  @List.sorted_insertionSort ℕ (sortRel d) _ ⟨sortRel_total d⟩ ⟨sortRel_trans d⟩ l

theorem topkIdx_subset {d : ℕ → ℚ} {k : ℕ} {idxs : List ℕ} {i : ℕ}
    (h : i ∈ topkIdx d k idxs) : i ∈ idxs := by
  unfold topkIdx at h
  exact (List.mem_insertionSort (sortRel d)).1 (List.mem_of_mem_take h)

theorem topkIdx_length (d : ℕ → ℚ) (k : ℕ) (idxs : List ℕ) :
    (topkIdx d k idxs).length = min k idxs.length := by
  unfold topkIdx
  rw [List.length_take, (List.perm_insertionSort (sortRel d) idxs).length_eq]

theorem topkIdx_min_le {d : ℕ → ℚ} {k : ℕ} {idxs : List ℕ} {i j : ℕ}
    (hi : i ∈ topkIdx d k idxs) (hj : j ∈ idxs) (hj' : j ∉ topkIdx d k idxs) :
    d i ≤ d j := by
  have hsorted : List.Sorted (sortRel d) (List.insertionSort (sortRel d) idxs) :=
    sorted_topkSort d idxs
  have hsplit : List.insertionSort (sortRel d) idxs =
      (List.insertionSort (sortRel d) idxs).take k ++
        (List.insertionSort (sortRel d) idxs).drop k :=
    (List.take_append_drop k _).symm
  have hjs : j ∈ (List.insertionSort (sortRel d) idxs).take k ++
      (List.insertionSort (sortRel d) idxs).drop k := by
    rw [← hsplit]
    exact (List.mem_insertionSort (sortRel d)).2 hj
  rw [hsplit] at hsorted
  have hcross := (List.pairwise_append.1 hsorted).2.2
  rcases List.mem_append.1 hjs with hjt | hjd
  · exact absurd hjt hj'
  · exact sortRel_le (hcross i hi j hjd)

end ATSSAssigner

end Mmdet

namespace Mmdet

namespace ATSSAssigner

theorem levelIdxs_eq_range' (bboxes : List Box) (lv : List ℕ) (ℓ : ℕ) :
    levelIdxs bboxes lv ℓ =
      List.range' (startOf lv ℓ)
        (min (lv.getD ℓ 0) (bboxes.length - startOf lv ℓ)) := by
  unfold levelIdxs
  apply List.ext_getElem
  · simp [List.length_take, List.length_drop, List.length_range, List.length_range']
  · intro n h1 h2
    simp [List.getElem_take, List.getElem_drop, List.getElem_range,
      List.getElem_range']

theorem mem_levelIdxs {bboxes : List Box} {lv : List ℕ} {ℓ i : ℕ} :
    i ∈ levelIdxs bboxes lv ℓ ↔
      ∃ p < min (lv.getD ℓ 0) (bboxes.length - startOf lv ℓ),
        i = startOf lv ℓ + p := by
  rw [levelIdxs_eq_range', List.mem_range']
  constructor
  · rintro ⟨p, hp, rfl⟩
    exact ⟨p, hp, by omega⟩
  · rintro ⟨p, hp, rfl⟩
    exact ⟨p, hp, by omega⟩

theorem levelIdxs_lt {bboxes : List Box} {lv : List ℕ} {ℓ i : ℕ}
    (h : i ∈ levelIdxs bboxes lv ℓ) : i < bboxes.length := by
  rw [mem_levelIdxs] at h
  obtain ⟨p, hp, rfl⟩ := h
  omega

theorem levelIdxs_range {bboxes : List Box} {lv : List ℕ} {ℓ i : ℕ}
    (h : i ∈ levelIdxs bboxes lv ℓ) :
    startOf lv ℓ ≤ i ∧ i < startOf lv ℓ + lv.getD ℓ 0 := by
  rw [mem_levelIdxs] at h
  obtain ⟨p, hp, rfl⟩ := h
  omega

theorem levelIdxs_length (bboxes : List Box) (lv : List ℕ) (ℓ : ℕ) :
    (levelIdxs bboxes lv ℓ).length =
      min (lv.getD ℓ 0) (bboxes.length - startOf lv ℓ) := by
  rw [levelIdxs_eq_range', List.length_range']

theorem mem_candOfGt {topk : ℕ} {bboxes : List Box} {lv : List ℕ}
    {gts : List Box} {g i : ℕ} :
    i ∈ candOfGt topk bboxes lv gts g ↔
      ∃ ℓ < lv.length, i ∈ candOfGtLevel topk bboxes lv gts g ℓ := by
  unfold candOfGt
  simp only [List.mem_flatten, List.mem_map, List.mem_range]
  constructor
  · rintro ⟨l, ⟨ℓ, hℓ, rfl⟩, hm⟩
    exact ⟨ℓ, hℓ, hm⟩
  · rintro ⟨ℓ, hℓ, hm⟩
    exact ⟨_, ⟨ℓ, hℓ, rfl⟩, hm⟩

theorem candOfGt_lt {topk : ℕ} {bboxes : List Box} {lv : List ℕ}
    {gts : List Box} {g i : ℕ}
    (h : i ∈ candOfGt topk bboxes lv gts g) : i < bboxes.length := by
  rw [mem_candOfGt] at h
  obtain ⟨ℓ, _, hm⟩ := h
  unfold candOfGtLevel at hm
  exact levelIdxs_lt (topkIdx_subset hm)

theorem candOfGt_length {topk : ℕ} {bboxes : List Box} {lv : List ℕ}
    {gts : List Box} (h : levelsOk topk bboxes lv) (g : ℕ) :
    (candOfGt topk bboxes lv gts g).length = topk * lv.length := by
  unfold candOfGt
  rw [List.length_flatten, List.map_map]
  have he : ∀ ℓ ∈ List.range lv.length,
      (List.length ∘ candOfGtLevel topk bboxes lv gts g) ℓ = topk := by
    intro ℓ hℓ
    rw [List.mem_range] at hℓ
    show (candOfGtLevel topk bboxes lv gts g ℓ).length = topk
    unfold candOfGtLevel
    rw [topkIdx_length, min_eq_left (h ℓ hℓ)]
  rw [List.map_congr_left he]
  simp [List.map_const', List.sum_replicate, smul_eq_mul, Nat.mul_comm]

end ATSSAssigner

end Mmdet

namespace Mmdet

namespace ATSSAssigner

theorem foldr_max_mem (l : List ℚ) (b : ℚ) :
    l.foldr max b = b ∨ l.foldr max b ∈ l := by
  induction l with
  | nil => exact Or.inl rfl
  | cons x xs ih =>
    rw [List.foldr_cons]
    rcases max_choice x (xs.foldr max b) with h | h
    · rw [h]
      exact Or.inr (List.mem_cons_self _ _)
    · rw [h]
      rcases ih with h' | h'
      · exact Or.inl h'
      · exact Or.inr (List.mem_cons_of_mem _ h')

theorem overlapRow_length (topk : ℕ) (bboxes : List Box) (lv : List ℕ)
    (gts : List Box) (i : ℕ) :
    (overlapRow topk bboxes lv gts i).length = gts.length := by
  unfold overlapRow
  rw [List.length_map, List.length_range]

theorem rowMax_mem {topk : ℕ} {bboxes : List Box} {lv : List ℕ}
    {gts : List Box} {i : ℕ} (h : rowMax topk bboxes lv gts i ≠ -INF) :
    rowMax topk bboxes lv gts i ∈ overlapRow topk bboxes lv gts i := by
  have h0 := foldr_max_mem (overlapRow topk bboxes lv gts i) (-INF)
  unfold rowMax
  unfold rowMax at h
  rcases h0 with h' | h'
  · exact absurd h' h
  · exact h'

theorem rowArgmax_lt {topk : ℕ} {bboxes : List Box} {lv : List ℕ}
    {gts : List Box} {i : ℕ} (h : rowMax topk bboxes lv gts i ≠ -INF) :
    rowArgmax topk bboxes lv gts i < gts.length := by
  have hmem := rowMax_mem h
  have hlt := List.findIdx_lt_length_of_exists
    (p := fun x => decide (x = rowMax topk bboxes lv gts i))
    ⟨_, hmem, by simp⟩
  rw [overlapRow_length] at hlt
  exact hlt

theorem overlapRow_getElem (topk : ℕ) (bboxes : List Box) (lv : List ℕ)
    (gts : List Box) (i g : ℕ) (hg : g < (overlapRow topk bboxes lv gts i).length) :
    (overlapRow topk bboxes lv gts i)[g] = posOverlap topk bboxes lv gts i g := by
  unfold overlapRow
  simp [List.getElem_map, List.getElem_range]

theorem posPair_of_assigned {topk : ℕ} {bboxes : List Box} {lv : List ℕ}
    {gts : List Box} {i g : ℕ}
    (h : assignedGtInds topk bboxes lv gts i = g + 1) :
    posPair topk bboxes lv gts i g ∧
      ov bboxes gts i g = rowMax topk bboxes lv gts i := by
  unfold assignedGtInds at h
  by_cases hm : rowMax topk bboxes lv gts i ≠ -INF
  case neg =>
    rw [if_neg hm] at h
    exact absurd h (by omega)
  rw [if_pos hm] at h
  have hg : rowArgmax topk bboxes lv gts i = g := by omega
  have hlt : rowArgmax topk bboxes lv gts i <
      (overlapRow topk bboxes lv gts i).length := by
    rw [overlapRow_length]
    exact rowArgmax_lt hm
  have hfind := @List.findIdx_getElem _
    (fun x => decide (x = rowMax topk bboxes lv gts i))
    (overlapRow topk bboxes lv gts i) hlt
  have heq : (overlapRow topk bboxes lv gts i)[rowArgmax topk bboxes lv gts i] =
      rowMax topk bboxes lv gts i := of_decide_eq_true hfind
  rw [overlapRow_getElem] at heq
  rw [hg] at heq
  unfold posOverlap at heq
  by_cases hp : posPair topk bboxes lv gts i g
  · rw [if_pos hp] at heq
    exact ⟨hp, heq⟩
  · rw [if_neg hp] at heq
    exact absurd heq.symm hm

theorem assignedGtInds_le (topk : ℕ) (bboxes : List Box) (lv : List ℕ)
    (gts : List Box) (i : ℕ) :
    assignedGtInds topk bboxes lv gts i ≤ gts.length := by
  unfold assignedGtInds
  split
  · next hm =>
    have := rowArgmax_lt hm
    omega
  · omega

theorem assign_ok_eq {topk : ℕ} {bboxes : List Box} {lv : List ℕ}
    {gts : List Box} {lbls : Option (List ℤ)} {res : AssignResult}
    (h : assign topk bboxes lv gts lbls = .ok res) :
    res = assignResult topk bboxes lv gts lbls ∧
      bboxes.length ≠ 0 ∧ gts.length ≠ 0 ∧ levelsOk topk bboxes lv ∧
      lv.length ≠ 0 := by
  unfold assign at h
  rcases Decidable.em (bboxes.length = 0 ∨ gts.length = 0) with h1 | h1
  · rw [if_pos h1] at h
    cases h
  · rw [if_neg h1] at h
    rcases Decidable.em (levelsOk topk bboxes lv) with h2 | h2
    · rw [if_neg (not_not_intro h2)] at h
      rcases Decidable.em (lv.length = 0) with h3 | h3
      · rw [if_pos h3] at h
        cases h
      · rw [if_neg h3] at h
        push_neg at h1
        exact ⟨(Except.ok.inj h).symm, h1.1, h1.2, h2, h3⟩
    · rw [if_pos h2] at h
      cases h

theorem getD_map_range {α : Type} {f : ℕ → α} {n b : ℕ} (hb : b < n) (d : α) :
    ((List.range n).map f).getD b d = f b := by
  rw [List.getD_eq_getElem?_getD, List.getElem?_map, List.getElem?_range hb]
  rfl

theorem getD_pos_lt {l : List ℕ} {b : ℕ} (h : l.getD b 0 ≠ 0) : b < l.length := by
  by_contra hb
  push_neg at hb
  rw [List.getD_eq_getElem?_getD, List.getElem?_eq_none (by omega)] at h
  exact h rfl

end ATSSAssigner

end Mmdet

namespace Mmdet

namespace ATSSAssigner

/-- Claim C1: `ATSSAssigner.assign` maps every candidate box either to
background (value `0`) or to a 1-based ground-truth index in `1..num_gt`, and
when `gt_labels` is supplied every positively assigned box receives the label
of its assigned ground truth (read at the 0-based index `g < num_gt`) while
background boxes receive label `0`. -/
theorem atss_assign_range_and_labels (topk : ℕ) (bboxes : List Box)
    (lv : List ℕ) (gts : List Box) (lbls : Option (List ℤ))
    (res : AssignResult) (h : assign topk bboxes lv gts lbls = .ok res) :
    res.num_gts = gts.length ∧
    res.gt_inds.length = bboxes.length ∧
    (∀ v ∈ res.gt_inds, v ≤ gts.length) ∧
    (lbls = none → res.labels = none) ∧
    (∀ ls, lbls = some ls →
      ∃ labs, res.labels = some labs ∧ labs.length = bboxes.length ∧
        ∀ b, b < bboxes.length →
          (res.gt_inds.getD b 0 = 0 → labs.getD b 0 = 0) ∧
          (∀ g, res.gt_inds.getD b 0 = g + 1 →
            g < gts.length ∧ labs.getD b 0 = ls.getD g 0)) := by
  obtain ⟨rfl, -, -, -, -⟩ := assign_ok_eq h
  refine ⟨rfl, by simp [assignResult], ?_, ?_, ?_⟩
  · intro v hv
    simp only [assignResult, List.mem_map, List.mem_range] at hv
    obtain ⟨b, -, rfl⟩ := hv
    exact assignedGtInds_le topk bboxes lv gts b
  · intro hn
    simp [assignResult, hn]
  · intro ls hs
    refine ⟨(List.range bboxes.length).map (assignedLabels topk bboxes lv gts ls),
      by simp [assignResult, hs], by simp, ?_⟩
    intro b hb
    have hge : (assignResult topk bboxes lv gts lbls).gt_inds.getD b 0 =
        assignedGtInds topk bboxes lv gts b := by
      simp only [assignResult]
      exact getD_map_range hb 0
    constructor
    · intro h0
      rw [hge] at h0
      rw [getD_map_range hb 0]
      unfold assignedLabels
      rw [h0]
      simp
    · intro g hgp
      rw [hge] at hgp
      have hle := assignedGtInds_le topk bboxes lv gts b
      rw [hgp] at hle
      refine ⟨by omega, ?_⟩
      rw [getD_map_range hb 0]
      unfold assignedLabels
      rw [hgp]
      simp

/-- Claim C4: in every assignment produced by `ATSSAssigner.assign`, each box
assigned a positive ground-truth index has its center strictly inside the
assigned ground-truth box, each of the four signed distances from the center
to the ground-truth sides exceeding `0.01`. -/
theorem atss_assign_center_gate (topk : ℕ) (bboxes : List Box) (lv : List ℕ)
    (gts : List Box) (lbls : Option (List ℤ)) (res : AssignResult)
    (h : assign topk bboxes lv gts lbls = .ok res) :
    ∀ b g, res.gt_inds.getD b 0 = g + 1 →
      1 / 100 < centerX (bboxes.getD b default) - (gts.getD g default).x1 ∧
      1 / 100 < centerY (bboxes.getD b default) - (gts.getD g default).y1 ∧
      1 / 100 < (gts.getD g default).x2 - centerX (bboxes.getD b default) ∧
      1 / 100 < (gts.getD g default).y2 - centerY (bboxes.getD b default) := by
  obtain ⟨rfl, -, -, -, -⟩ := assign_ok_eq h
  intro b g hbg
  have hb : b < bboxes.length := by
    have hlt := getD_pos_lt
      (l := (assignResult topk bboxes lv gts lbls).gt_inds) (b := b)
      (by rw [hbg]; omega)
    simpa [assignResult] using hlt
  have hass : assignedGtInds topk bboxes lv gts b = g + 1 := by
    have heq : (assignResult topk bboxes lv gts lbls).gt_inds.getD b 0 =
        assignedGtInds topk bboxes lv gts b := by
      simp only [assignResult]
      exact getD_map_range hb 0
    rw [heq] at hbg
    exact hbg
  obtain ⟨⟨-, -, hin⟩, -⟩ := posPair_of_assigned hass
  unfold isInGt at hin
  rw [lt_min_iff, lt_min_iff, lt_min_iff] at hin
  exact ⟨hin.1, hin.2.1, hin.2.2.1, hin.2.2.2⟩

/-- Claim C2: in `ATSSAssigner.assign` the positive-sample IoU threshold of a
ground truth is the mean plus the standard deviation of the IoUs of that
ground truth's selected candidates, and a candidate pair is retained as
positive only if its IoU reaches this threshold.  With `m` the mean and `v`
the unbiased variance of the candidate IoUs (`torch.std` squared), the
comparison `o ≥ m + √v` is stated in the equivalent radical-free form
`m ≤ o ∧ v ≤ (o - m)²` (`v` is a sum of squares over a nonnegative divisor,
hence nonnegative). -/
theorem atss_assign_iou_threshold (topk : ℕ) (bboxes : List Box)
    (lv : List ℕ) (gts : List Box) (b g : ℕ)
    (hpos : posPair topk bboxes lv gts b g) :
    (candOverlaps topk bboxes lv gts g).sum /
        ((candOverlaps topk bboxes lv gts g).length : ℚ) ≤ ov bboxes gts b g ∧
    ((candOverlaps topk bboxes lv gts g).map
        (fun x => (x - (candOverlaps topk bboxes lv gts g).sum /
          ((candOverlaps topk bboxes lv gts g).length : ℚ)) ^ 2)).sum /
        (((candOverlaps topk bboxes lv gts g).length - 1 : ℕ) : ℚ) ≤
      (ov bboxes gts b g - (candOverlaps topk bboxes lv gts g).sum /
        ((candOverlaps topk bboxes lv gts g).length : ℚ)) ^ 2 := by
  have h2 := hpos.2.1
  unfold geMeanPlusStd overlapsVar overlapsMean at h2
  exact h2

/-- Claim C3: candidate selection in `ATSSAssigner.assign` is per pyramid
level: for each ground truth and each level exactly `topk` candidates are
chosen, namely boxes of minimal center distance to the ground-truth center
among that level's boxes (stated on squared distances; `sqrt` is monotone),
each level's chosen indices lie within that level's contiguous index range of
the partition `num_level_bboxes`, and each ground truth has
`topk * num_levels` candidates in total. -/
theorem atss_assign_topk_per_level (topk : ℕ) (bboxes : List Box)
    (lv : List ℕ) (gts : List Box) (lbls : Option (List ℤ))
    (res : AssignResult) (h : assign topk bboxes lv gts lbls = .ok res) :
    (∀ g, candOfGt topk bboxes lv gts g =
      ((List.range lv.length).map (candOfGtLevel topk bboxes lv gts g)).flatten) ∧
    (∀ g, (candOfGt topk bboxes lv gts g).length = topk * lv.length) ∧
    ∀ g ℓ, ℓ < lv.length →
      (candOfGtLevel topk bboxes lv gts g ℓ).length = topk ∧
      (∀ i ∈ candOfGtLevel topk bboxes lv gts g ℓ,
        startOf lv ℓ ≤ i ∧ i < startOf lv ℓ + lv.getD ℓ 0) ∧
      (∀ i ∈ candOfGtLevel topk bboxes lv gts g ℓ,
        ∀ j ∈ levelIdxs bboxes lv ℓ, j ∉ candOfGtLevel topk bboxes lv gts g ℓ →
          distToGt bboxes gts g i ≤ distToGt bboxes gts g j) := by
  obtain ⟨-, -, -, hok, -⟩ := assign_ok_eq h
  refine ⟨fun g => rfl, fun g => candOfGt_length hok g, ?_⟩
  intro g ℓ hℓ
  refine ⟨?_, ?_, ?_⟩
  · unfold candOfGtLevel
    rw [topkIdx_length, min_eq_left (hok ℓ hℓ)]
  · intro i hi
    unfold candOfGtLevel at hi
    exact levelIdxs_range (topkIdx_subset hi)
  · intro i hi j hj hj'
    unfold candOfGtLevel at hi hj'
    exact topkIdx_min_le hi hj hj'

/-- Claim C8: `ATSSAssigner.assign` is well-defined only under its
preconditions: it errors when the candidate-box set or the ground-truth set
is empty (the explicit `ValueError`), it errors when some pyramid level holds
fewer than `topk` boxes (the `torch.topk` precondition), it succeeds under
the preconditions (given at least one pyramid level, which `torch.cat`
additionally requires), and every candidate index produced by the per-level
top-k selection is in bounds and inside its level's index range. -/
theorem atss_assign_preconditions (topk : ℕ) (bboxes : List Box)
    (lv : List ℕ) (gts : List Box) (lbls : Option (List ℤ)) :
    ((bboxes.length = 0 ∨ gts.length = 0) →
      assign topk bboxes lv gts lbls = .error "No gt or bboxes") ∧
    (bboxes.length ≠ 0 → gts.length ≠ 0 → ¬ levelsOk topk bboxes lv →
      assign topk bboxes lv gts lbls = .error "selected index k out of range") ∧
    (∀ res, assign topk bboxes lv gts lbls = .ok res →
      bboxes.length ≠ 0 ∧ gts.length ≠ 0 ∧ levelsOk topk bboxes lv) ∧
    (bboxes.length ≠ 0 → gts.length ≠ 0 → levelsOk topk bboxes lv →
      lv.length ≠ 0 →
      assign topk bboxes lv gts lbls =
        .ok (assignResult topk bboxes lv gts lbls)) ∧
    (∀ g i, i ∈ candOfGt topk bboxes lv gts g →
      i < bboxes.length ∧
      ∃ ℓ < lv.length, startOf lv ℓ ≤ i ∧ i < startOf lv ℓ + lv.getD ℓ 0) := by
  refine ⟨?_, ?_, ?_, ?_, ?_⟩
  · intro h1
    unfold assign
    rw [if_pos h1]
  · intro h1 h2 h3
    unfold assign
    rw [if_neg (by push_neg; exact ⟨h1, h2⟩), if_pos h3]
  · intro res h
    obtain ⟨-, a, b, c, -⟩ := assign_ok_eq h
    exact ⟨a, b, c⟩
  · intro h1 h2 h3 h4
    unfold assign
    rw [if_neg (by push_neg; exact ⟨h1, h2⟩), if_neg (not_not_intro h3),
      if_neg h4]
  · intro g i hi
    refine ⟨candOfGt_lt hi, ?_⟩
    rw [mem_candOfGt] at hi
    obtain ⟨ℓ, hℓ, hm⟩ := hi
    unfold candOfGtLevel at hm
    exact ⟨ℓ, hℓ, levelIdxs_range (topkIdx_subset hm)⟩

end ATSSAssigner

end Mmdet

namespace Mmdet

namespace ATSSAssigner

theorem wit_assign_ok :
    assign 1 Wit.bbs Wit.lv Wit.gts (some [7]) =
      .ok (assignResult 1 Wit.bbs Wit.lv Wit.gts (some [7])) := by
  unfold assign
  rw [if_neg (by decide), if_neg (by decide), if_neg (by decide)]

theorem wit_cand : candOfGt 1 Wit.bbs Wit.lv Wit.gts 0 = [0] := by decide

theorem wit_ov : ov Wit.bbs Wit.gts 0 0 = 1 := by
  norm_num [ov, bbox_overlaps, Wit.bbs, Wit.gts, Wit.box2, List.getD_cons_zero]

theorem wit_candOverlaps : candOverlaps 1 Wit.bbs Wit.lv Wit.gts 0 = [1] := by
  unfold candOverlaps
  rw [wit_cand]
  simp [wit_ov]

theorem wit_mean : overlapsMean 1 Wit.bbs Wit.lv Wit.gts 0 = 1 := by
  unfold overlapsMean
  rw [wit_candOverlaps]
  norm_num

theorem wit_var : overlapsVar 1 Wit.bbs Wit.lv Wit.gts 0 = 0 := by
  unfold overlapsVar
  rw [wit_candOverlaps, wit_mean]
  norm_num

theorem wit_posPair : posPair 1 Wit.bbs Wit.lv Wit.gts 0 0 := by
  refine ⟨?_, ?_, ?_⟩
  · rw [wit_cand]
    exact List.mem_singleton.2 rfl
  · unfold geMeanPlusStd
    rw [wit_ov, wit_mean, wit_var]
    norm_num
  · show isInGt (Wit.bbs.getD 0 default) (Wit.gts.getD 0 default)
    unfold isInGt
    norm_num [Wit.bbs, Wit.gts, Wit.box2, centerX, centerY, List.getD_cons_zero,
      min_self]

theorem wit_assignedGtInds : assignedGtInds 1 Wit.bbs Wit.lv Wit.gts 0 = 1 := by
  have hrow : overlapRow 1 Wit.bbs Wit.lv Wit.gts 0 = [1] := by
    have hp : posOverlap 1 Wit.bbs Wit.lv Wit.gts 0 0 = 1 := by
      unfold posOverlap
      rw [if_pos wit_posPair, wit_ov]
    have h1 : List.range Wit.gts.length = [0] := by decide
    unfold overlapRow
    rw [h1, List.map_cons, List.map_nil, hp]
  have hmax : rowMax 1 Wit.bbs Wit.lv Wit.gts 0 = 1 := by
    unfold rowMax
    rw [hrow, List.foldr_cons, List.foldr_nil,
      max_eq_left (by norm_num [INF] : -INF ≤ (1 : ℚ))]
  have hne : rowMax 1 Wit.bbs Wit.lv Wit.gts 0 ≠ -INF := by
    rw [hmax]
    norm_num [INF]
  have harg : rowArgmax 1 Wit.bbs Wit.lv Wit.gts 0 = 0 := by
    unfold rowArgmax
    rw [hrow, hmax]
    simp [List.findIdx_cons]
  unfold assignedGtInds
  rw [if_pos hne, harg]

theorem wit_gtInds :
    (assignResult 1 Wit.bbs Wit.lv Wit.gts (some [7])).gt_inds.getD 0 0 = 0 + 1 := by
  show ((List.range Wit.bbs.length).map
    (assignedGtInds 1 Wit.bbs Wit.lv Wit.gts)).getD 0 0 = 0 + 1
  rw [getD_map_range (by decide) 0, wit_assignedGtInds]

end ATSSAssigner

end Mmdet

namespace Mmdet

namespace ATSSAssigner

/-- Witness for claim C1: the theorem applied to a concrete one-box,
one-level, one-ground-truth input. -/
theorem atss_assign_range_and_labels_witness :
    (assignResult 1 Wit.bbs Wit.lv Wit.gts (some [7])).gt_inds.length =
      Wit.bbs.length :=
  (atss_assign_range_and_labels 1 Wit.bbs Wit.lv Wit.gts (some [7]) _
    wit_assign_ok).2.1

/-- Witness for claim C4: on the concrete input, box 0 is assigned to ground
truth 0 and its center clears the left side by more than `0.01`. -/
theorem atss_assign_center_gate_witness :
    1 / 100 < centerX (Wit.bbs.getD 0 default) - (Wit.gts.getD 0 default).x1 :=
  ((atss_assign_center_gate 1 Wit.bbs Wit.lv Wit.gts (some [7]) _
    wit_assign_ok) 0 0 wit_gtInds).1

/-- Witness for claim C2: on the concrete input, the positive pair `(0, 0)`
has IoU at least the candidate mean. -/
theorem atss_assign_iou_threshold_witness :
    (candOverlaps 1 Wit.bbs Wit.lv Wit.gts 0).sum /
        ((candOverlaps 1 Wit.bbs Wit.lv Wit.gts 0).length : ℚ) ≤
      ov Wit.bbs Wit.gts 0 0 :=
  (atss_assign_iou_threshold 1 Wit.bbs Wit.lv Wit.gts 0 0 wit_posPair).1

/-- Witness for claim C3: on the concrete input, ground truth 0 has
`topk * num_levels = 1` candidates. -/
theorem atss_assign_topk_per_level_witness :
    (candOfGt 1 Wit.bbs Wit.lv Wit.gts 0).length = 1 * Wit.lv.length :=
  (atss_assign_topk_per_level 1 Wit.bbs Wit.lv Wit.gts (some [7]) _
    wit_assign_ok).2.1 0

/-- Witness for claim C8: empty inputs raise the `ValueError`; a level with
fewer than `topk` boxes errors; the satisfied preconditions give success. -/
theorem atss_assign_preconditions_witness :
    assign 1 ([] : List Box) [] [] none = .error "No gt or bboxes" ∧
    assign 2 Wit.bbs Wit.lv Wit.gts none =
      .error "selected index k out of range" ∧
    assign 1 Wit.bbs Wit.lv Wit.gts none =
      .ok (assignResult 1 Wit.bbs Wit.lv Wit.gts none) :=
  ⟨(atss_assign_preconditions 1 [] [] [] none).1 (Or.inl rfl),
   (atss_assign_preconditions 2 Wit.bbs Wit.lv Wit.gts none).2.1
     (by decide) (by decide) (by decide),
   (atss_assign_preconditions 1 Wit.bbs Wit.lv Wit.gts none).2.2.2.1
     (by decide) (by decide) (by decide) (by decide)⟩

end ATSSAssigner

end Mmdet

namespace Mmdet

namespace CascadeRoIHead

section CascadeLemmas

variable {P G A S R F Pred T : Type}

theorem runStage_proposalsIn (ops : Ops P G A S R F Pred T) (wm : Bool)
    (ns : ℕ) (lw : ℚ) (i : ℕ) (props : List P) (gts : List G) :
    (runStage ops wm ns lw i props gts).proposalsIn = props := by
  unfold runStage
  cases hre : ops.roisEmpty (ops.toRois ((props.zip gts).map
    (fun pg => ops.sample i (ops.assign i pg.1 pg.2) pg.1 pg.2))) <;>
    simp [hre]

theorem runStage_skipped (ops : Ops P G A S R F Pred T) (wm : Bool)
    (ns : ℕ) (lw : ℚ) (i : ℕ) (props : List P) (gts : List G) :
    (runStage ops wm ns lw i props gts).skipped =
      ops.roisEmpty (ops.toRois ((props.zip gts).map
        (fun pg => ops.sample i (ops.assign i pg.1 pg.2) pg.1 pg.2))) := by
  unfold runStage
  cases hre : ops.roisEmpty (ops.toRois ((props.zip gts).map
    (fun pg => ops.sample i (ops.assign i pg.1 pg.2) pg.1 pg.2))) <;>
    simp [hre]

theorem runStage_eq_of_not_empty {ops : Ops P G A S R F Pred T} {wm : Bool}
    {ns : ℕ} {lw : ℚ} {i : ℕ} {props : List P} {gts : List G}
    (h : ops.roisEmpty (ops.toRois ((props.zip gts).map
      (fun pg => ops.sample i (ops.assign i pg.1 pg.2) pg.1 pg.2))) = false) :
    runStage ops wm ns lw i props gts =
      { proposalsIn := props
        assignResults := (props.zip gts).map (fun pg => ops.assign i pg.1 pg.2)
        sampResults := (props.zip gts).map
          (fun pg => ops.sample i (ops.assign i pg.1 pg.2) pg.1 pg.2)
        rois := ops.toRois ((props.zip gts).map
          (fun pg => ops.sample i (ops.assign i pg.1 pg.2) pg.1 pg.2))
        skipped := false
        feats := some (ops.extract i (ops.toRois ((props.zip gts).map
          (fun pg => ops.sample i (ops.assign i pg.1 pg.2) pg.1 pg.2))))
        pred := some (ops.predict i (ops.extract i (ops.toRois ((props.zip gts).map
          (fun pg => ops.sample i (ops.assign i pg.1 pg.2) pg.1 pg.2)))))
        targets := some (ops.getTarget i ((props.zip gts).map
          (fun pg => ops.sample i (ops.assign i pg.1 pg.2) pg.1 pg.2)) gts)
        rawEntries := ops.lossOf i
            (ops.predict i (ops.extract i (ops.toRois ((props.zip gts).map
              (fun pg => ops.sample i (ops.assign i pg.1 pg.2) pg.1 pg.2)))))
            (ops.getTarget i ((props.zip gts).map
              (fun pg => ops.sample i (ops.assign i pg.1 pg.2) pg.1 pg.2)) gts) ++
          (if wm then ops.maskLossOf i ((props.zip gts).map
            (fun pg => ops.sample i (ops.assign i pg.1 pg.2) pg.1 pg.2)) else [])
        entries := (ops.lossOf i
            (ops.predict i (ops.extract i (ops.toRois ((props.zip gts).map
              (fun pg => ops.sample i (ops.assign i pg.1 pg.2) pg.1 pg.2)))))
            (ops.getTarget i ((props.zip gts).map
              (fun pg => ops.sample i (ops.assign i pg.1 pg.2) pg.1 pg.2)) gts) ++
          (if wm then ops.maskLossOf i ((props.zip gts).map
            (fun pg => ops.sample i (ops.assign i pg.1 pg.2) pg.1 pg.2)) else [])).map
            (fun e => (stageKey i e.1, if nameHasLoss e.1 then e.2 * lw else e.2))
        proposalsOut :=
          if i < ns - 1 then
            ops.refine i
              (ops.toRois ((props.zip gts).map
                (fun pg => ops.sample i (ops.assign i pg.1 pg.2) pg.1 pg.2)))
              (ops.getTarget i ((props.zip gts).map
                (fun pg => ops.sample i (ops.assign i pg.1 pg.2) pg.1 pg.2)) gts)
              (ops.predict i (ops.extract i (ops.toRois ((props.zip gts).map
                (fun pg => ops.sample i (ops.assign i pg.1 pg.2) pg.1 pg.2)))))
              ((props.zip gts).map
                (fun pg => ops.sample i (ops.assign i pg.1 pg.2) pg.1 pg.2))
          else props } := by
  unfold runStage
  rw [if_neg (by simp [h])]

theorem runStage_entries (ops : Ops P G A S R F Pred T) (wm : Bool)
    (ns : ℕ) (lw : ℚ) (i : ℕ) (props : List P) (gts : List G) :
    (runStage ops wm ns lw i props gts).entries =
      (runStage ops wm ns lw i props gts).rawEntries.map
        (fun e => (stageKey i e.1, if nameHasLoss e.1 then e.2 * lw else e.2)) := by
  unfold runStage
  cases hre : ops.roisEmpty (ops.toRois ((props.zip gts).map
    (fun pg => ops.sample i (ops.assign i pg.1 pg.2) pg.1 pg.2))) <;>
    simp [hre]

theorem runFrom_length (ops : Ops P G A S R F Pred T) (wm : Bool) (ns : ℕ)
    (lws : List ℚ) (gts : List G) :
    ∀ (n i : ℕ) (props : List P),
      (runFrom ops wm ns lws gts n i props).length = n := by
  intro n
  induction n with
  | zero => intro i props; rfl
  | succ n ih =>
    intro i props
    rw [runFrom, List.length_cons, ih]

theorem runStage_eq_of_empty {ops : Ops P G A S R F Pred T} {wm : Bool}
    {ns : ℕ} {lw : ℚ} {i : ℕ} {props : List P} {gts : List G}
    (h : ops.roisEmpty (ops.toRois ((props.zip gts).map
      (fun pg => ops.sample i (ops.assign i pg.1 pg.2) pg.1 pg.2))) = true) :
    runStage ops wm ns lw i props gts =
      { proposalsIn := props
        assignResults := (props.zip gts).map (fun pg => ops.assign i pg.1 pg.2)
        sampResults := (props.zip gts).map
          (fun pg => ops.sample i (ops.assign i pg.1 pg.2) pg.1 pg.2)
        rois := ops.toRois ((props.zip gts).map
          (fun pg => ops.sample i (ops.assign i pg.1 pg.2) pg.1 pg.2))
        skipped := true
        feats := none
        pred := none
        targets := none
        rawEntries := []
        entries := []
        proposalsOut := props } := by
  unfold runStage
  rw [if_pos (by simp [h])]

theorem runFrom_get? (ops : Ops P G A S R F Pred T) (wm : Bool) (ns : ℕ)
    (lws : List ℚ) (gts : List G) :
    ∀ (n i : ℕ) (props : List P) (k : ℕ) (t : StageTrace P A S R F Pred T),
      (runFrom ops wm ns lws gts n i props)[k]? = some t →
      ∃ props', t = runStage ops wm ns (lws.getD (i + k) 0) (i + k) props' gts := by
  intro n
  induction n with
  | zero =>
    intro i props k t h
    simp [runFrom] at h
  | succ n ih =>
    intro i props k t h
    rw [runFrom] at h
    cases k with
    | zero =>
      rw [List.getElem?_cons_zero] at h
      exact ⟨props, (Option.some.inj h).symm⟩
    | succ k =>
      rw [List.getElem?_cons_succ] at h
      obtain ⟨p, hp⟩ := ih (i + 1) _ k t h
      have e : i + 1 + k = i + (k + 1) := by omega
      rw [e] at hp
      exact ⟨p, hp⟩

theorem runFrom_zero_proposalsIn (ops : Ops P G A S R F Pred T) (wm : Bool)
    (ns : ℕ) (lws : List ℚ) (gts : List G) :
    ∀ (n i : ℕ) (props : List P) (t : StageTrace P A S R F Pred T),
      (runFrom ops wm ns lws gts n i props)[0]? = some t →
      t.proposalsIn = props := by
  intro n
  cases n with
  | zero =>
    intro i props t h
    simp [runFrom] at h
  | succ n =>
    intro i props t h
    rw [runFrom, List.getElem?_cons_zero] at h
    rw [← Option.some.inj h]
    exact runStage_proposalsIn ops wm ns (lws.getD i 0) i props gts

theorem runFrom_chain (ops : Ops P G A S R F Pred T) (wm : Bool) (ns : ℕ)
    (lws : List ℚ) (gts : List G) :
    ∀ (n i : ℕ) (props : List P) (k : ℕ)
      (t t' : StageTrace P A S R F Pred T),
      (runFrom ops wm ns lws gts n i props)[k]? = some t →
      (runFrom ops wm ns lws gts n i props)[k + 1]? = some t' →
      t'.proposalsIn = t.proposalsOut := by
  intro n
  induction n with
  | zero =>
    intro i props k t t' h h'
    simp [runFrom] at h
  | succ n ih =>
    intro i props k t t' h h'
    rw [runFrom] at h h'
    cases k with
    | zero =>
      rw [List.getElem?_cons_zero] at h
      rw [List.getElem?_cons_succ] at h'
      rw [← Option.some.inj h]
      exact runFrom_zero_proposalsIn ops wm ns lws gts n (i + 1) _ t' h'
    | succ k =>
      rw [List.getElem?_cons_succ] at h h'
      exact ih (i + 1) _ k t t' h h'

end CascadeLemmas

end CascadeRoIHead

end Mmdet

namespace Mmdet

namespace CascadeRoIHead

/-- Claim C5 (amended): `CascadeRoIHead.forward_train` runs exactly
`num_stages` stages; every stage runs the per-image assignment and sampling
and pools the sampled results into rois, and a stage is skipped exactly when
the pooled rois are empty (the `len(rois) == 0 → continue` branch of
cascade_roi_head.py lines 199-202).  A non-skipped stage extracts ROI
features, runs the head, and, on every stage but the last, refines the boxes
from its predictions; a skipped stage runs no head computation (no features,
prediction or targets), contributes no loss entries, and passes its proposal
list through unchanged.  The proposal list used at stage `i + 1` equals the
proposals produced by stage `i`. -/
theorem cascade_forward_train_stages {P G A S R F Pred T : Type}
    (ops : Ops P G A S R F Pred T) (wm : Bool) (ns : ℕ) (lws : List ℚ)
    (props0 : List P) (gts : List G) :
    (runFrom ops wm ns lws gts ns 0 props0).length = ns ∧
    (∀ t, (runFrom ops wm ns lws gts ns 0 props0)[0]? = some t →
      t.proposalsIn = props0) ∧
    (∀ k t, (runFrom ops wm ns lws gts ns 0 props0)[k]? = some t →
      t.assignResults = (t.proposalsIn.zip gts).map
        (fun pg => ops.assign k pg.1 pg.2) ∧
      t.sampResults = (t.proposalsIn.zip gts).map
        (fun pg => ops.sample k (ops.assign k pg.1 pg.2) pg.1 pg.2) ∧
      t.rois = ops.toRois t.sampResults ∧
      t.skipped = ops.roisEmpty t.rois ∧
      (t.skipped = false →
        t.feats = some (ops.extract k t.rois) ∧
        t.pred = some (ops.predict k (ops.extract k t.rois)) ∧
        t.targets = some (ops.getTarget k t.sampResults gts) ∧
        (k < ns - 1 →
          t.proposalsOut = ops.refine k t.rois
            (ops.getTarget k t.sampResults gts)
            (ops.predict k (ops.extract k t.rois)) t.sampResults)) ∧
      (t.skipped = true →
        t.feats = none ∧ t.pred = none ∧ t.targets = none ∧
        t.entries = [] ∧ t.proposalsOut = t.proposalsIn)) ∧
    (∀ k t t', (runFrom ops wm ns lws gts ns 0 props0)[k]? = some t →
      (runFrom ops wm ns lws gts ns 0 props0)[k + 1]? = some t' →
      t'.proposalsIn = t.proposalsOut) := by
  refine ⟨runFrom_length ops wm ns lws gts ns 0 props0,
    fun t h => runFrom_zero_proposalsIn ops wm ns lws gts ns 0 props0 t h,
    ?_,
    fun k t t' h h' => runFrom_chain ops wm ns lws gts ns 0 props0 k t t' h h'⟩
  intro k t h
  obtain ⟨p, hp⟩ := runFrom_get? ops wm ns lws gts ns 0 props0 k t h
  rw [Nat.zero_add] at hp
  subst hp
  cases hre : ops.roisEmpty (ops.toRois ((p.zip gts).map
    (fun pg => ops.sample k (ops.assign k pg.1 pg.2) pg.1 pg.2)))
  · refine ⟨?_, ?_, ?_, ?_, ?_, ?_⟩
    · simp only [runStage_eq_of_not_empty hre]
    · simp only [runStage_eq_of_not_empty hre]
    · simp only [runStage_eq_of_not_empty hre]
    · simp only [runStage_eq_of_not_empty hre]
      exact hre.symm
    · simp only [runStage_eq_of_not_empty hre]
      intro _
      refine ⟨by trivial, by trivial, by trivial, ?_⟩
      intro hk
      rw [if_pos hk]
    · simp only [runStage_eq_of_not_empty hre]
      intro habs
      exact absurd habs (by simp)
  · refine ⟨?_, ?_, ?_, ?_, ?_, ?_⟩
    · simp only [runStage_eq_of_empty hre]
    · simp only [runStage_eq_of_empty hre]
    · simp only [runStage_eq_of_empty hre]
    · simp only [runStage_eq_of_empty hre]
      exact hre.symm
    · simp only [runStage_eq_of_empty hre]
      intro habs
      exact absurd habs (by simp)
    · simp only [runStage_eq_of_empty hre]
      intro _
      exact ⟨by trivial, by trivial, by trivial, by trivial, by trivial⟩

/-- Claim C6: every entry of the loss dictionary returned by
`CascadeRoIHead.forward_train` originates from a stage `i` loss entry
`(name, value)` and is stored under the key `'s{i}.' + name` with the value
multiplied by `stage_loss_weights[i]` exactly when `name` contains `'loss'`,
and conversely every stage entry lands in the dictionary in that form. -/
theorem cascade_forward_train_loss_keys {P G A S R F Pred T : Type}
    (ops : Ops P G A S R F Pred T) (wm : Bool) (ns : ℕ) (lws : List ℚ)
    (props0 : List P) (gts : List G) :
    (∀ (k : ℕ) (t : StageTrace P A S R F Pred T),
      (runFrom ops wm ns lws gts ns 0 props0)[k]? = some t →
      t.entries = t.rawEntries.map (fun e =>
        ("s" ++ toString k ++ "." ++ e.1,
         if nameHasLoss e.1 then e.2 * lws.getD k 0 else e.2)) ∧
      ∀ e ∈ t.entries, e ∈ forward_train ops wm ns lws props0 gts) ∧
    (∀ e ∈ forward_train ops wm ns lws props0 gts,
      ∃ (k : ℕ) (t : StageTrace P A S R F Pred T),
        (runFrom ops wm ns lws gts ns 0 props0)[k]? = some t ∧
        ∃ r ∈ t.rawEntries,
          e = ("s" ++ toString k ++ "." ++ r.1,
               if nameHasLoss r.1 then r.2 * lws.getD k 0 else r.2)) := by
  constructor
  · intro k t h
    constructor
    · obtain ⟨p, hp⟩ := runFrom_get? ops wm ns lws gts ns 0 props0 k t h
      rw [Nat.zero_add] at hp
      subst hp
      exact runStage_entries ops wm ns (lws.getD k 0) k p gts
    · intro e he
      have ht : t ∈ runFrom ops wm ns lws gts ns 0 props0 :=
        List.getElem?_mem h
      unfold forward_train
      exact List.mem_flatten.2 ⟨t.entries, List.mem_map_of_mem _ ht, he⟩
  · intro e he
    unfold forward_train at he
    obtain ⟨l, hl, hel⟩ := List.mem_flatten.1 he
    obtain ⟨t, ht, rfl⟩ := List.mem_map.1 hl
    obtain ⟨k, hk⟩ := List.getElem?_of_mem ht
    obtain ⟨p, hp⟩ := runFrom_get? ops wm ns lws gts ns 0 props0 k t hk
    rw [Nat.zero_add] at hp
    subst hp
    refine ⟨k, _, hk, ?_⟩
    rw [runStage_entries] at hel
    obtain ⟨r, hr, rfl⟩ := List.mem_map.1 hel
    exact ⟨r, hr, rfl⟩

end CascadeRoIHead

end Mmdet

namespace Mmdet

namespace CascadeRoIHead

/-- Witness for claim C5: on a concrete two-stage instantiation, stage 0's
assignment is the per-image assign of its input proposals, its head runs on
the pooled rois, and stage 1 starts from stage 0's output proposals; on the
always-empty-rois instantiation, the skipped stage passes its proposal list
through unchanged. -/
theorem cascade_forward_train_stages_witness :
    (runStage Wit.ops false 2 (([(1 : ℚ), 1]).getD 0 0) 0 [()] [()]).assignResults =
      (((runStage Wit.ops false 2 (([(1 : ℚ), 1]).getD 0 0) 0 [()] [()]).proposalsIn).zip
        [()]).map (fun pg => Wit.ops.assign 0 pg.1 pg.2) ∧
    (runStage Wit.ops false 2 (([(1 : ℚ), 1]).getD 0 0) 0 [()] [()]).pred =
      some (Wit.ops.predict 0 (Wit.ops.extract 0
        (runStage Wit.ops false 2 (([(1 : ℚ), 1]).getD 0 0) 0 [()] [()]).rois)) ∧
    (runStage Wit.opsSkip false 2 (([(1 : ℚ), 1]).getD 0 0) 0 [()] [()]).proposalsOut =
      (runStage Wit.opsSkip false 2 (([(1 : ℚ), 1]).getD 0 0) 0 [()] [()]).proposalsIn ∧
    (runStage Wit.ops false 2 (([(1 : ℚ), 1]).getD 1 0) 1
        (runStage Wit.ops false 2 (([(1 : ℚ), 1]).getD 0 0) 0 [()] [()]).proposalsOut
        [()]).proposalsIn =
      (runStage Wit.ops false 2 (([(1 : ℚ), 1]).getD 0 0) 0 [()] [()]).proposalsOut := by
  have h := cascade_forward_train_stages Wit.ops false 2 [1, 1] [()] [()]
  have h3 := h.2.2.1 0 _ rfl
  have hs := cascade_forward_train_stages Wit.opsSkip false 2 [1, 1] [()] [()]
  have hs3 := hs.2.2.1 0 _ rfl
  exact ⟨h3.1, (h3.2.2.2.2.1 (by decide)).2.1,
    (hs3.2.2.2.2.2 (by decide)).2.2.2.2, h.2.2.2 0 _ _ rfl rfl⟩

/-- Witness for claim C6: on a concrete one-stage instantiation, the stage's
entries are its raw loss entries under the `'s0.'` key with the
weight-on-loss rule. -/
theorem cascade_forward_train_loss_keys_witness :
    (runStage Wit.ops false 1 (([(1 : ℚ)]).getD 0 0) 0 [()] [()]).entries =
      (runStage Wit.ops false 1 (([(1 : ℚ)]).getD 0 0) 0 [()] [()]).rawEntries.map
        (fun e => ("s" ++ toString 0 ++ "." ++ e.1,
          if nameHasLoss e.1 then e.2 * ([(1 : ℚ)]).getD 0 0 else e.2)) :=
  ((cascade_forward_train_loss_keys Wit.ops false 1 [1] [()] [()]).1 0 _ rfl).1

section TestLemmas

variable {ι R F BP L : Type}

theorem testLoop_zero (ops : TestOps ι R F BP L) (ns i : ℕ) (rois : R) :
    testLoop ops ns 0 i rois = ([], rois) := rfl

theorem testLoop_succ (ops : TestOps ι R F BP L) (ns n i : ℕ) (rois : R) :
    testLoop ops ns (n + 1) i rois =
      ((ops.predict i (ops.extract i rois)).1 ::
        (testLoop ops ns n (i + 1)
          (if i < ns - 1 then
            ops.regress i rois (ops.argmaxOf (ops.predict i (ops.extract i rois)).1)
              (ops.predict i (ops.extract i rois)).2
          else rois)).1,
       (testLoop ops ns n (i + 1)
          (if i < ns - 1 then
            ops.regress i rois (ops.argmaxOf (ops.predict i (ops.extract i rois)).1)
              (ops.predict i (ops.extract i rois)).2
          else rois)).2) := rfl

theorem roisAt_succ (ops : TestOps ι R F BP L) (ns : ℕ) (rois0 : R) (i : ℕ) :
    roisAt ops ns rois0 (i + 1) =
      (if i < ns - 1 then
        ops.regress i (roisAt ops ns rois0 i)
          (ops.argmaxOf (ops.predict i (ops.extract i (roisAt ops ns rois0 i))).1)
          (ops.predict i (ops.extract i (roisAt ops ns rois0 i))).2
      else roisAt ops ns rois0 i) := rfl

theorem testLoop_closed (ops : TestOps ι R F BP L) (ns : ℕ) (rois0 : R) :
    ∀ n i, testLoop ops ns n i (roisAt ops ns rois0 i) =
      ((List.range' i n).map (fun j => scoreAt ops ns rois0 j),
        roisAt ops ns rois0 (i + n)) := by
  intro n
  induction n with
  | zero => intro i; rfl
  | succ n ih =>
    intro i
    rw [testLoop_succ, ← roisAt_succ, ih (i + 1)]
    have e : i + 1 + n = i + (n + 1) := by omega
    rw [e]
    rfl

end TestLemmas

/-- Claim C9: in `CascadeRoIHead.simple_test` the classification score used
for final detection is the arithmetic mean of the per-stage classification
scores (`sum(ms_scores) / num_stages`), where stage `i` scores the rois
`roisAt i`, i.e. the rois refined by stage `i - 1`'s class-conditional
regression, starting from the proposal rois. -/
theorem cascade_simple_test_mean {ι R F BP L : Type} (ops : TestOps ι R F BP L)
    (ns : ℕ) (rois0 : R) :
    (simple_test ops ns rois0).1 =
      (fun c => ((List.range ns).map (fun i => scoreAt ops ns rois0 i c)).sum /
        (ns : ℚ)) ∧
    (testLoop ops ns ns 0 rois0).1 =
      (List.range ns).map (fun i => scoreAt ops ns rois0 i) ∧
    (testLoop ops ns ns 0 rois0).2 = roisAt ops ns rois0 ns := by
  have h : testLoop ops ns ns 0 rois0 =
      ((List.range' 0 ns).map (fun j => scoreAt ops ns rois0 j),
        roisAt ops ns rois0 ns) := by
    have h0 := testLoop_closed ops ns rois0 ns 0
    rw [Nat.zero_add] at h0
    exact h0
  rw [← List.range_eq_range'] at h
  refine ⟨?_, ?_, ?_⟩
  · show (fun c => (((testLoop ops ns ns 0 rois0).1.map (fun s => s c)).sum /
      (ns : ℚ))) = _
    rw [h]
    funext c
    rw [List.map_map]
    rfl
  · rw [h]
  · rw [h]

end CascadeRoIHead

end Mmdet

namespace Mmdet

namespace SemiMixUpDetector

theorem maskSelect_map {α : Type} (p : α → Bool) :
    ∀ xs : List α, maskSelect (xs.map p) xs = xs.filter p := by
  intro xs
  induction xs with
  | nil => rfl
  | cons x xs ih =>
    cases hp : p x
    · simp [maskSelect, hp, List.filter_cons] at ih ⊢
      exact ih
    · simp [maskSelect, hp, List.filter_cons] at ih ⊢
      exact ih

theorem maskSelect_mask_of_snd {α β : Type} (p : β → Bool) :
    ∀ (xs : List α) (ys : List β), xs.length = ys.length →
      maskSelect (ys.map p) xs =
        ((xs.zip ys).filter (fun q => p q.2)).map (fun q => q.1) := by
  intro xs
  induction xs with
  | nil => intro ys h; simp [maskSelect]
  | cons x xs ih =>
    intro ys h
    cases ys with
    | nil => exact absurd h (by simp)
    | cons y ys =>
      have hxy : xs.length = ys.length := by simpa using h
      have htail := ih ys hxy
      cases hp : p y
      · simp [maskSelect, hp, List.filter_cons] at htail ⊢
        exact htail
      · simp [maskSelect, hp, List.filter_cons] at htail ⊢
        exact htail

theorem maskSelect_mask_of_fst {α β : Type} (p : α → Bool) :
    ∀ (xs : List α) (ys : List β), xs.length = ys.length →
      maskSelect (xs.map p) (xs.zip ys) =
        (xs.zip ys).filter (fun q => p q.1) := by
  intro xs
  induction xs with
  | nil => intro ys h; simp [maskSelect]
  | cons x xs ih =>
    intro ys h
    cases ys with
    | nil => exact absurd h (by simp)
    | cons y ys =>
      have hxy : xs.length = ys.length := by simpa using h
      have htail := ih ys hxy
      cases hp : p x
      · simp [maskSelect, hp, List.filter_cons] at htail ⊢
        exact htail
      · simp [maskSelect, hp, List.filter_cons] at htail ⊢
        exact htail

theorem maskSelect_zip {α β : Type} :
    ∀ (m : List Bool) (xs : List α) (ys : List β), xs.length = ys.length →
      (maskSelect m xs).zip (maskSelect m ys) = maskSelect m (xs.zip ys) := by
  intro m
  induction m with
  | nil => intro xs ys h; rfl
  | cons b m ih =>
    intro xs ys h
    cases xs with
    | nil => rfl
    | cons x xs' =>
      cases ys with
      | nil => exact absurd h (by simp)
      | cons y ys' =>
        have hxy : xs'.length = ys'.length := by simpa using h
        have htail := ih xs' ys' hxy
        cases b
        · simp [maskSelect] at htail ⊢
          exact htail
        · simp [maskSelect] at htail ⊢
          exact htail

end SemiMixUpDetector

end Mmdet

namespace Mmdet

namespace SemiMixUpDetector

/-- Claim C7: in `SemiMixUpDetector`, pseudo labels are exactly the teacher
predictions whose score strictly exceeds `semi_train_cfg.score_thr`, and
pseudo-label filtering keeps exactly the pseudo boxes whose width exceeds
`min_pseudo_bbox_wh[0]` and whose height exceeds `min_pseudo_bbox_wh[1]`,
with labels selected by the same mask, hence aligned to the retained boxes
(stated through the zipped box-label pairs). -/
theorem semi_pseudo_instances (thr : ℚ) (B : List Box) (L : List ℤ)
    (S : List ℚ) (hBS : B.length = S.length) (hLS : L.length = S.length)
    (wh : ℚ × ℚ) (inst : Instances)
    (hI : inst.bboxes.length = inst.labels.length) :
    (update_pseudo_instances thr B L S).bboxes =
      ((B.zip S).filter (fun q => decide (thr < q.2))).map (fun q => q.1) ∧
    (update_pseudo_instances thr B L S).labels =
      ((L.zip S).filter (fun q => decide (thr < q.2))).map (fun q => q.1) ∧
    ((update_pseudo_instances thr B L S).bboxes).zip
        ((update_pseudo_instances thr B L S).labels) =
      (((B.zip L).zip S).filter (fun q => decide (thr < q.2))).map
        (fun q => q.1) ∧
    (filter_pseudo_instances wh inst).bboxes =
      inst.bboxes.filter (fun bx =>
        decide (wh.1 < bx.x2 - bx.x1) && decide (wh.2 < bx.y2 - bx.y1)) ∧
    ((filter_pseudo_instances wh inst).bboxes).zip
        ((filter_pseudo_instances wh inst).labels) =
      (inst.bboxes.zip inst.labels).filter (fun q =>
        decide (wh.1 < q.1.x2 - q.1.x1) && decide (wh.2 < q.1.y2 - q.1.y1)) := by
  have hBL : B.length = L.length := hBS.trans hLS.symm
  have hzipS : (B.zip L).length = S.length := by
    rw [List.length_zip, hBS, hLS, min_self]
  refine ⟨?_, ?_, ?_, ?_, ?_⟩
  · show maskSelect (S.map (fun s => decide (thr < s))) B = _
    exact maskSelect_mask_of_snd _ B S hBS
  · show maskSelect (S.map (fun s => decide (thr < s))) L = _
    exact maskSelect_mask_of_snd _ L S hLS
  · show (maskSelect (S.map (fun s => decide (thr < s))) B).zip
        (maskSelect (S.map (fun s => decide (thr < s))) L) = _
    rw [maskSelect_zip _ B L hBL]
    exact maskSelect_mask_of_snd _ (B.zip L) S hzipS
  · unfold filter_pseudo_instances
    rcases Decidable.em (inst.bboxes.length = 0) with hE | hE
    · rw [if_pos hE]
      rw [List.length_eq_zero] at hE
      rw [hE]
      rfl
    · rw [if_neg hE]
      exact maskSelect_map _ inst.bboxes
  · unfold filter_pseudo_instances
    rcases Decidable.em (inst.bboxes.length = 0) with hE | hE
    · rw [if_pos hE]
      rw [List.length_eq_zero] at hE
      rw [hE]
      rfl
    · rw [if_neg hE]
      show (maskSelect (inst.bboxes.map _) inst.bboxes).zip
          (maskSelect (inst.bboxes.map _) inst.labels) = _
      rw [maskSelect_zip _ inst.bboxes inst.labels hI]
      exact maskSelect_mask_of_fst _ inst.bboxes inst.labels hI

/-- Witness for claim C7: the theorem applied to a concrete one-prediction
input with threshold `1/2`. -/
theorem semi_pseudo_instances_witness :
    (update_pseudo_instances (1 / 2) [Wit.box2] [5] [1]).bboxes =
      (([Wit.box2].zip [(1 : ℚ)]).filter
        (fun q => decide ((1 : ℚ) / 2 < q.2))).map (fun q => q.1) :=
  (semi_pseudo_instances (1 / 2) [Wit.box2] [5] [1] rfl rfl (0, 0)
    ⟨[Wit.box2], [5]⟩ rfl).1

theorem scaleLV_zero (v : LossVal) : scaleLV v 0 = zeroLike v := by
  cases v with
  | scalar q => simp [scaleLV, zeroLike]
  | seq l => simp [scaleLV, zeroLike]

/-- Claim C10: `SemiMixUpDetector.weight` multiplies by the weight exactly
the entries whose key contains `'loss'` (elementwise on sequence values) and
returns every other entry unchanged; and in `pseudo_loss`, when the batch
holds zero pseudo instances the effective unsupervised weight is `0`, so
every `'loss'` entry is zeroed (and the other entries are unchanged) under
the `'unsup_'` key prefix. -/
theorem semi_weight_loss_only (raw : List (String × LossVal)) (w : ℚ) :
    (weight raw w).length = raw.length ∧
    (∀ k, k < raw.length →
      (weight raw w).getD k ("", .scalar 0) =
        (if nameHasLoss (raw.getD k ("", .scalar 0)).1
         then ((raw.getD k ("", .scalar 0)).1,
               scaleLV (raw.getD k ("", .scalar 0)).2 w)
         else raw.getD k ("", .scalar 0))) ∧
    (∀ l, scaleLV (.seq l) w = .seq (l.map (fun x => x * w))) ∧
    (∀ q, scaleLV (.scalar q) w = .scalar (q * w)) ∧
    (∀ cfg counts, counts.sum = 0 →
      pseudo_loss cfg counts raw =
        raw.map (fun e => ("unsup_" ++ e.1,
          if nameHasLoss e.1 then zeroLike e.2 else e.2))) := by
  refine ⟨by simp [weight], ?_, fun l => rfl, fun q => rfl, ?_⟩
  · intro k hk
    unfold weight
    rw [List.getD_eq_getElem?_getD, List.getElem?_map,
      List.getElem?_eq_getElem hk, List.getD_eq_getElem?_getD,
      List.getElem?_eq_getElem hk]
    rfl
  · intro cfg counts h
    unfold pseudo_loss
    rw [h, if_neg (lt_irrefl 0)]
    unfold weight
    rw [List.map_map]
    apply List.map_congr_left
    intro e he
    rcases Decidable.em (nameHasLoss e.1) with hl | hl
    · simp only [Function.comp_apply, if_pos hl, scaleLV_zero]
    · simp only [Function.comp_apply, if_neg hl]

/-- Witness for claim C10: the theorem applied to a one-entry loss dictionary
with weight `2`, and the zero-instance batch `[0]`. -/
theorem semi_weight_loss_only_witness :
    pseudo_loss 3 [0] [("loss_x", LossVal.scalar 5)] =
      [("loss_x", LossVal.scalar 5)].map (fun e => ("unsup_" ++ e.1,
        if nameHasLoss e.1 then zeroLike e.2 else e.2)) ∧
    (weight [("loss_x", LossVal.scalar 5)] 2).getD 0 ("", .scalar 0) =
      (if nameHasLoss (([("loss_x", LossVal.scalar 5)]).getD 0 ("", .scalar 0)).1
       then ((([("loss_x", LossVal.scalar 5)]).getD 0 ("", .scalar 0)).1,
             scaleLV (([("loss_x", LossVal.scalar 5)]).getD 0 ("", .scalar 0)).2 2)
       else ([("loss_x", LossVal.scalar 5)]).getD 0 ("", .scalar 0)) :=
  ⟨(semi_weight_loss_only [("loss_x", LossVal.scalar 5)] 2).2.2.2.2 3 [0] rfl,
   (semi_weight_loss_only [("loss_x", LossVal.scalar 5)] 2).2.1 0 (by decide)⟩

end SemiMixUpDetector

end Mmdet

namespace Mmdet

namespace CascadeRoIHead

/-- Counterexample for claim C5 as stated: when a stage's pooled rois are
empty, the `len(rois) == 0 → continue` branch (cascade_roi_head.py lines
199-202) runs no feature extraction, no head prediction and no box
refinement even on a non-last stage, and the next stage receives the
unchanged proposal list rather than refined boxes. -/
theorem cascade_forward_train_stages_counterexample :
    ∃ t, (runFrom Wit.opsSkip false 2 [1, 1] [()] 2 0 [()])[0]? = some t ∧
      t.skipped = true ∧ t.feats = none ∧ t.pred = none ∧
      t.proposalsOut = [()] ∧
      t.proposalsOut ≠ Wit.opsSkip.refine 0 t.rois () () t.sampResults :=
  ⟨_, rfl, rfl, rfl, rfl, rfl, by decide⟩

end CascadeRoIHead

end Mmdet
